import Mathlib

/-!
Shallow embedding of `src/app.py` (a spreadsheet price-reconciliation tool)
and proofs about its core logic: the two value parsers, the header locator,
the SKU decomposer, the price resolver, the pricelist/addon loaders and the
batch reconciler `process_shopee_files`.

Modelling conventions:
* Python cell values are `PyVal` (`None`, `bool`, `int`, finite `float`
  modelled as an exact rational, `NaN`, `str`).
* Python `str.strip`/`str.upper`/`str.split` and `re.findall(r"\d+", s)`
  followed by `"".join` are implemented over `List Char`; joining all digit
  runs of a string in order is the same as keeping all digit characters in
  order, which is how `digitsOf` is written.
* Python 3 `round` is round-half-to-even; on a rational `n/d` (`d > 0`) it is
  `pyRoundND n d`, written with integer floor division `n / d` (Lean's `Int`
  division is euclidean division, which is floor division for `d > 0`).
* Python dicts are insertion-ordered association lists (`AList`); updating an
  existing key keeps its position, a new key is appended.
* A worksheet is a list of rows of cells; `openpyxl` returns `None` for an
  absent cell.
* Exceptions are `Except`: `load_workbook` failures on a mass-update file are
  the `.error` case of the file argument, and errors raised by the core are
  `PyError` (`valueError` for the `raise ValueError(...)` sites, `indexError`
  for `mass_files[0]` on an empty list, `loadError` for an uncaught
  `load_workbook` failure on the first file).
-/

namespace PriceShopee

/-- Python cell values as delivered by openpyxl. A finite float is modelled
as an exact rational; `nan` is a separate constructor. -/
inductive PyVal where
  | none
  | bool (b : Bool)
  | int (n : ℤ)
  | float (q : ℚ)
  | nan
  | str (s : String)
deriving DecidableEq, Repr

/-- Python `str.strip()` (drop leading and trailing whitespace). -/
def strip (s : String) : String :=
  (((s.toList.dropWhile Char.isWhitespace).reverse.dropWhile Char.isWhitespace).reverse).asString

/-- Python `str.upper()` (ASCII case map suffices for the keywords used). -/
def upperStr (s : String) : String :=
  (s.toList.map Char.toUpper).asString

/-- Python `str()` of a cell value. The textual form of a non-integral float
is approximated (no theorem in this file evaluates it); all code paths that
matter apply `str` to values that are already strings or integers. -/
def py_str : PyVal → String
  | .none => "None"
  | .bool true => "True"
  | .bool false => "False"
  | .int n => toString n
  | .float q => if q.den = 1 then toString q.num ++ ".0" else toString q.num ++ "/" ++ toString q.den
  | .nan => "nan"
  | .str s => s

/-- Function `_norm_str` from src/app.py: `""` for `None`, else `str(x).strip()`. -/
def _norm_str (x : PyVal) : String :=
  match x with
  | .none => ""
  | v => strip (py_str v)

/-- Function `_norm_key` from src/app.py: `_norm_str(x).strip().upper()`. -/
def _norm_key (x : PyVal) : String :=
  upperStr (strip (_norm_str x))

/-- All digit characters of a string in order: `"".join(re.findall(r"\d+", s))`
concatenates the digit runs of `s` in order, which keeps exactly the digit
characters of `s` in their original order. -/
def digitsOf (s : String) : List Char :=
  s.toList.filter Char.isDigit

/-- Python `int(...)` on a nonempty string of digit characters. -/
def digitsToNat (l : List Char) : ℕ :=
  l.foldl (fun n c => 10 * n + (c.toNat - 48)) 0

/-- Python 3 `round` (round half to even) of the rational `n/d`, `d > 0`.
`n / d` and `n % d` are euclidean quotient/remainder, so for `d > 0` the
quotient is the floor and `0 ≤ n % d < d`; the fractional part `r/d` is
compared with `1/2` via `2*r` against `d`. -/
def pyRoundND (n d : ℤ) : ℤ :=
  if 2 * (n % d) < d then n / d
  else if d < 2 * (n % d) then n / d + 1
  else if (n / d) % 2 = 0 then n / d else n / d + 1

/-- Python 3 `round` on a float modelled as the exact rational `q`. -/
def pyRound (q : ℚ) : ℤ :=
  pyRoundND q.num q.den

/-- Function `parse_thousands_to_rp` from src/app.py (the Scaled Parser).
The float branch tests `value < 1000 and abs(value - round(value)) > 1e-9`;
the second conjunct is written in exact integer form: for `q = num/den`,
`|q - round(q)| > 1/10^9` iff `den < 10^9 * |num - round(q)*den|`
(see `frac_gt_eps_iff`).  `round(value * 1000)` is `pyRoundND (num*1000) den`
since `value*1000 = (num*1000)/den` (see `pyRound_mul_thousand`). -/
def parse_thousands_to_rp : PyVal → Option ℤ
  | .none => Option.none
  | .bool _ => Option.none
  | .int n => Option.some (n * 1000)
  | .nan => Option.none
  | .float q =>
      if q < 1000 ∧ (q.den : ℤ) < 1000000000 * |q.num - pyRound q * (q.den : ℤ)| then
        Option.some (pyRoundND (q.num * 1000) (q.den : ℤ) * 1000)
      else
        Option.some (pyRound q * 1000)
  | .str t =>
      let s := _norm_str (.str t)
      if s = "" then Option.none
      else
        let ds := digitsOf s
        if ds = [] then Option.none
        else Option.some ((digitsToNat ds : ℤ) * 1000)

/-- Function `parse_rp` from src/app.py (the Direct Parser): same shape handling but
without the `×1000` scaling and without the fractional special case. -/
def parse_rp : PyVal → Option ℤ
  | .none => Option.none
  | .bool _ => Option.none
  | .int n => Option.some n
  | .nan => Option.none
  | .float q => Option.some (pyRound q)
  | .str t =>
      let s := _norm_str (.str t)
      if s = "" then Option.none
      else
        let ds := digitsOf s
        if ds = [] then Option.none
        else Option.some ((digitsToNat ds : ℤ))

/-- Insertion-ordered association list standing for a Python dict. -/
abbrev AList (α : Type) := List (String × α)

/-- Python `k in d`. -/
def dictContains {α : Type} (d : AList α) (k : String) : Bool :=
  d.any (fun p => p.1 == k)

/-- Python `d.get(k)`. -/
def dictGet? {α : Type} (d : AList α) (k : String) : Option α :=
  (d.find? (fun p => p.1 == k)).map (fun p => p.2)

/-- Python `d[k]` with a default for the (unreachable) missing case. -/
def dictGetD {α : Type} (d : AList α) (k : String) (dflt : α) : α :=
  (dictGet? d k).getD dflt

/-- Python `d[k] = v`: update in place if the key exists, else append (Python dicts
preserve insertion order). -/
def dictInsert {α : Type} (d : AList α) (k : String) (v : α) : AList α :=
  if dictContains d k then d.map (fun p => if p.1 == k then (k, v) else p)
  else d ++ [(k, v)]

/-- The value of the bottom-most entry of `entries` whose key is `k`. -/
def lastVal {α : Type} (entries : List (String × α)) (k : String) : Option α :=
  (entries.reverse.find? (fun p => p.1 == k)).map (fun p => p.2)

/-- A worksheet: a list of rows of cells. -/
structure Ws where
  rows : List (List PyVal)
deriving DecidableEq, Repr

/-- Attribute `ws.max_row`. -/
def Ws.maxRow (ws : Ws) : ℕ := ws.rows.length

/-- Attribute `ws.max_column` (openpyxl reports at least 1). -/
def Ws.maxCol (ws : Ws) : ℕ := ws.rows.foldl (fun m r => max m r.length) 1

/-- Accessor `ws.cell(r, c).value`, 1-based; absent cells read as `None`. -/
def Ws.cell (ws : Ws) (r c : ℕ) : PyVal :=
  ((ws.rows.getD (r - 1) []).getD (c - 1) PyVal.none)

/-- Python `pat in hay` on strings (substring containment). -/
def strContains (hay pat : String) : Bool :=
  hay.toList.tails.any (fun t => pat.toList.isPrefixOf t)

/-- The `" | "`-joined upper-cased text of row `r` in `find_header_row`. -/
def row_text (ws : Ws) (r : ℕ) : String :=
  String.intercalate " | "
    ((List.range' 1 ws.maxCol).map (fun c => upperStr (_norm_str (ws.cell r c))))

/-- The per-row test of `find_header_row`: every keyword group has a member
occurring in the row text. -/
def row_ok (ws : Ws) (must_have_any : List (List String)) (r : ℕ) : Bool :=
  must_have_any.all (fun group => group.any (fun k => strContains (row_text ws r) (upperStr k)))

/-- Function `find_header_row` from src/app.py: first row index in
`1 .. min scan_rows ws.max_row` whose row text satisfies every group. -/
def find_header_row (ws : Ws) (must_have_any : List (List String)) (scan_rows : ℕ) : Option ℕ :=
  (List.range' 1 (min scan_rows ws.maxRow)).find? (row_ok ws must_have_any)

/-- The property of row `r` that the header search looks for, stated as a
proposition: every keyword group has a member whose upper-cased text occurs
as a substring (list infix) of the row's concatenated upper-cased cell text. -/
def row_matches (ws : Ws) (must_have_any : List (List String)) (r : ℕ) : Prop :=
  ∀ g ∈ must_have_any, ∃ k ∈ g, (upperStr k).toList <:+: (row_text ws r).toList

/-- Function `map_headers` from src/app.py: normalized header text → column index,
built left to right, later duplicates overwriting earlier ones. -/
def map_headers (ws : Ws) (header_row : ℕ) : AList ℕ :=
  (List.range' 1 ws.maxCol).foldl
    (fun h c =>
      let key := _norm_key (ws.cell header_row c)
      if key = "" then h else dictInsert h key c) []

/-- Python `s.split(sep)` for a one-character separator. -/
def splitChar (sep : Char) : List Char → List (List Char)
  | [] => [[]]
  | a :: rest =>
    match splitChar sep rest with
    | [] => [[]]
    | g :: gs => if a = sep then [] :: g :: gs else (a :: g) :: gs

/-- Function `split_sku_addons` from src/app.py: split on `+`, drop segments that are
blank after stripping, first remaining segment (stripped) is the base, the
rest (stripped) are the addons. -/
def split_sku_addons (sku_full : String) : String × List String :=
  let parts := ((splitChar '+' sku_full.toList).map List.asString).filter
    (fun p => !(strip p == ""))
  match parts with
  | [] => ("", [])
  | base :: rest => (strip base, rest.map strip)

/-- The addon accumulation loop of `compute_final_price`: skip addon codes
that are blank after normalization, return `none` as soon as a code is
missing from the addon map (the `return None` in the source), otherwise the
sum of the looked-up addon prices. -/
def addon_sum_loop (addon_map : AList ℤ) : List String → Option ℤ
  | [] => Option.some 0
  | a :: rest =>
    let akey := _norm_key (.str a)
    if akey = "" then addon_sum_loop addon_map rest
    else
      match dictGet? addon_map akey with
      | Option.none => Option.none
      | Option.some v => (addon_sum_loop addon_map rest).map (fun s => v + s)

/-- Function `compute_final_price` from src/app.py (the Price Resolver). -/
def compute_final_price (sku_full : String) (pricelist_map addon_map : AList ℤ)
    (diskon_rp : ℤ) : Option ℤ :=
  let p := split_sku_addons sku_full
  let base_key := _norm_key (.str p.1)
  if base_key = "" ∨ dictContains pricelist_map base_key = false then Option.none
  else
    let base_price := dictGetD pricelist_map base_key 0
    match addon_sum_loop addon_map p.2 with
    | Option.none => Option.none
    | Option.some addon_sum =>
      let final := base_price + addon_sum - diskon_rp
      Option.some (if final < 0 then 0 else final)

/-- An issue table row. -/
structure Issue where
  file : String
  row : String
  sku_full : String
  base_sku : String
  reason : String
deriving DecidableEq, Repr

/-- Errors raised by the core: `valueError` for the explicit
`raise ValueError(...)` sites, `indexError` for `mass_files[0]` on an empty
list, `loadError` for an uncaught workbook-load failure on the first file. -/
inductive PyError where
  | valueError (msg : String)
  | indexError (msg : String)
  | loadError (msg : String)
deriving DecidableEq, Repr

/-- The contribution of one pricelist data row: skip `None` codes, blank or
`"TOTAL"` keys, and unparseable prices; otherwise the normalized key with the
scaled-parsed price. -/
def pl_row_entry (ws : Ws) (sku_col m4_col r : ℕ) : Option (String × ℤ) :=
  let sku := ws.cell r sku_col
  if sku = PyVal.none then Option.none
  else
    let sku_key := _norm_key sku
    if sku_key = "" ∨ sku_key = "TOTAL" then Option.none
    else (parse_thousands_to_rp (ws.cell r m4_col)).map (fun p => (sku_key, p))

/-- The ordered contributions of the pricelist rows below the header row. -/
def pl_entries (ws : Ws) (header_row sku_col m4_col : ℕ) : List (String × ℤ) :=
  (List.range' (header_row + 1) (ws.maxRow - header_row)).filterMap
    (pl_row_entry ws sku_col m4_col)

/-- The pricelist SKU and price columns resolved from the header map:
`hdr.get("KODEBARANG") or hdr.get("KODE BARANG")`, and `hdr.get("M4")`. -/
def pl_cols (ws : Ws) (header_row : ℕ) : Option ℕ × Option ℕ :=
  let hdr := map_headers ws header_row
  ((dictGet? hdr "KODEBARANG").or (dictGet? hdr "KODE BARANG"), dictGet? hdr "M4")

/-- Function `load_pricelist_map` from src/app.py, on the already-loaded first sheet. -/
def load_pricelist_map (ws : Ws) : Except PyError (AList ℤ × ℕ) :=
  match find_header_row ws [["KODEBARANG", "KODE BARANG"], ["M4"]] 80 with
  | Option.none =>
    Except.error (.valueError "Header Pricelist tidak ketemu. Pastikan ada kolom KODEBARANG & M4.")
  | Option.some header_row =>
    match pl_cols ws header_row with
    | (Option.some sku_col, Option.some m4_col) =>
      let pl_map := (pl_entries ws header_row sku_col m4_col).foldl
        (fun m kv => dictInsert m kv.1 kv.2) []
      if pl_map = [] then
        Except.error (.valueError
          "Pricelist kebaca, tapi mapping KODEBARANG -> M4 kosong. Cek isi file Pricelist.")
      else Except.ok (pl_map, header_row)
    | _ =>
      Except.error (.valueError
        "Kolom SKU/Price di Pricelist tidak ketemu (butuh KODEBARANG/KODE BARANG & M4).")

/-- The contribution of one addon data row: skip `None` codes, blank keys and
unparseable prices. -/
def addon_row_entry (ws : Ws) (code_col price_col r : ℕ) : Option (String × ℤ) :=
  let code := ws.cell r code_col
  if code = PyVal.none then Option.none
  else
    let code_key := _norm_key code
    if code_key = "" then Option.none
    else (parse_thousands_to_rp (ws.cell r price_col)).map (fun p => (code_key, p))

/-- The ordered contributions of the addon rows below the header row. -/
def addon_entries (ws : Ws) (header_row code_col price_col : ℕ) : List (String × ℤ) :=
  (List.range' (header_row + 1) (ws.maxRow - header_row)).filterMap
    (addon_row_entry ws code_col price_col)

/-- The addon price column: first of `HARGA`, `PRICE` present in the header
map. -/
def addon_price_col (hdr : AList ℕ) : Option ℕ :=
  (["HARGA", "PRICE"].filterMap (fun k => dictGet? hdr k)).head?

/-- The addon code column: first exact candidate present, else the first
header (in insertion order) containing one of the fallback keywords. -/
def addon_code_col (hdr : AList ℕ) : Option ℕ :=
  match (["ADDON_CODE", "KODE", "KODE ADDON", "STANDARISASI KODE SKU DI VARIAN",
          "STANDARISASI KODE SKU DI VARIASI", "KODE VARIAN", "KODE VARIASI"].filterMap
            (fun k => dictGet? hdr k)).head? with
  | Option.some c => Option.some c
  | Option.none =>
    ((hdr.filter (fun p =>
        ["KODE", "VARIAN", "VARIASI", "STANDARISASI", "ADDON"].any
          (fun x => strContains p.1 x))).head?).map (fun p => p.2)

/-- Function `load_addon_map` from src/app.py, on the already-loaded first sheet. -/
def load_addon_map (ws : Ws) : Except PyError (AList ℤ) :=
  match find_header_row ws [["HARGA", "PRICE"], ["KODE", "VARIAN", "STANDARISASI", "ADDON"]] 80 with
  | Option.none =>
    Except.error (.valueError "Header Addon Mapping tidak ketemu. Pastikan ada kolom kode addon & harga.")
  | Option.some header_row =>
    let hdr := map_headers ws header_row
    match addon_code_col hdr, addon_price_col hdr with
    | Option.some code_col, Option.some price_col =>
      Except.ok ((addon_entries ws header_row code_col price_col).foldl
        (fun m kv => dictInsert m kv.1 kv.2) [])
    | _, _ =>
      Except.error (.valueError "Kolom addon_code / harga tidak ketemu di Addon Mapping.")

/-- Fixed layout of the mass-update files: data starts at row 7. -/
def DATA_START_ROW : ℕ := 7

/-- SKU column (F). -/
def SKU_COL : ℕ := 6

/-- Price column (G). -/
def PRICE_COL : ℕ := 7

/-- The row written into the output workbook for source row `r`: cell values
of columns `1 .. max_col` copied from the source row, then the price cell
overwritten with the computed amount (openpyxl leaves columns between
`max_col` and `PRICE_COL` empty when `max_col < PRICE_COL`). -/
def emit_row (ws : Ws) (r max_col : ℕ) (new_price : ℤ) : List PyVal :=
  (List.range' 1 (max max_col PRICE_COL)).map
    (fun c => if c = PRICE_COL then PyVal.int new_price
              else if c ≤ max_col then ws.cell r c else PyVal.none)

/-- The body of the row loop of `process_shopee_files` for row `r`: `none`
when the row is skipped (blank SKU, `compute_final_price` yields no update,
or the existing parsed price equals the new price); otherwise the emitted
output row. -/
def row_output (pricelist_map addon_map : AList ℤ) (diskon_rp : ℤ) (max_col : ℕ)
    (ws : Ws) (r : ℕ) : Option (List PyVal) :=
  if _norm_str (ws.cell r SKU_COL) = "" then Option.none
  else
    match compute_final_price (_norm_str (ws.cell r SKU_COL)) pricelist_map addon_map diskon_rp with
    | Option.none => Option.none
    | Option.some new_price =>
      match parse_rp (ws.cell r PRICE_COL) with
      | Option.some op =>
        if op = new_price then Option.none
        else Option.some (emit_row ws r max_col new_price)
      | Option.none => Option.some (emit_row ws r max_col new_price)

/-- The rows one mass-update worksheet contributes to the output workbook
(rows `DATA_START_ROW .. ws.max_row`, in order). -/
def file_rows (pricelist_map addon_map : AList ℤ) (diskon_rp : ℤ) (max_col : ℕ)
    (ws : Ws) : List (List PyVal) :=
  (List.range' DATA_START_ROW (ws.maxRow + 1 - DATA_START_ROW)).filterMap
    (row_output pricelist_map addon_map diskon_rp max_col ws)

/-- The output rows of a list of mass-update files: a file whose load failed
contributes nothing. -/
def flat_rows (pricelist_map addon_map : AList ℤ) (diskon_rp : ℤ) (max_col : ℕ)
    (files : List (String × Except String Ws)) : List (List PyVal) :=
  (files.filterMap (fun f =>
    match f.2 with
    | Except.ok ws => Option.some (file_rows pricelist_map addon_map diskon_rp max_col ws)
    | Except.error _ => Option.none)).flatten

/-- The per-file issue records: one for each file whose load raised. -/
def flat_issues (files : List (String × Except String Ws)) : List Issue :=
  files.filterMap (fun f =>
    match f.2 with
    | Except.ok _ => Option.none
    | Except.error e => Option.some ⟨f.1, "", "", "", "Gagal proses file: " ++ e⟩)

/-- The synthetic issue appended when no row changed at all. -/
def emptyNotice : Issue :=
  ⟨"", "", "", "", "Tidak ada baris yang berubah (semua cocok / tidak ada yang bisa diupdate)."⟩

/-- One iteration of the file loop of `process_shopee_files`: a file whose
load raised appends one issue record; otherwise the file's emitted rows are
appended to the output. -/
def reconcile_step (pricelist_map addon_map : AList ℤ) (diskon_rp : ℤ) (max_col : ℕ)
    (acc : List (List PyVal) × List Issue) (f : String × Except String Ws) :
    List (List PyVal) × List Issue :=
  match f.2 with
  | Except.error e => (acc.1, acc.2 ++ [⟨f.1, "", "", "", "Gagal proses file: " ++ e⟩])
  | Except.ok ws =>
    (acc.1 ++ file_rows pricelist_map addon_map diskon_rp max_col ws, acc.2)

/-- The final state: when zero rows were written the empty-result notice is
appended to the issues. -/
def finalize (res : List (List PyVal) × List Issue) : List (List PyVal) × List Issue :=
  (res.1, if res.1.length = 0 then res.2 ++ [emptyNotice] else res.2)

/-- Function `process_shopee_files` from src/app.py. The output workbook is modelled
by its list of emitted data rows; template styling and XLSX serialization are
out of scope. Loads the pricelist (fatal on failure), then the optional addon
map (fatal on failure), then indexes `mass_files[0]` (an `IndexError` on an
empty list) and loads it as the template (uncaught failure aborts the run);
each file of the loop is processed inside `try`, a load failure producing one
issue record; finally the empty-result notice is appended when no row was
written. -/
def process_shopee_files (mass_files : List (String × Except String Ws)) (pl_ws : Ws)
    (addon_ws : Option Ws) (diskon_rp : ℤ) :
    Except PyError (List (List PyVal) × List Issue) :=
  match load_pricelist_map pl_ws with
  | Except.error e => Except.error e
  | Except.ok (pricelist_map, _) =>
    match (match addon_ws with
           | Option.none => Except.ok ([] : AList ℤ)
           | Option.some aws => load_addon_map aws) with
    | Except.error e => Except.error e
    | Except.ok addon_map =>
      match mass_files with
      | [] => Except.error (.indexError "list index out of range")
      | (_, first_res) :: _ =>
        match first_res with
        | Except.error e => Except.error (.loadError e)
        | Except.ok tmp_ws =>
          Except.ok (finalize (mass_files.foldl
            (reconcile_step pricelist_map addon_map diskon_rp tmp_ws.maxCol) ([], [])))

/-! ### Concrete fixtures used by witnesses and counterexamples -/

/-- A minimal valid pricelist sheet: header row 1, one data row mapping
`BASE` to scaled price `9300` (= Rp 9 300 000). -/
def plWsEx : Ws := ⟨[[.str "KODEBARANG", .str "M4"], [.str "BASE", .int 9300]]⟩

/-- A pricelist sheet with two data rows whose codes both normalize to `A`. -/
def plWsDup : Ws :=
  ⟨[[.str "KODEBARANG", .str "M4"], [.str "A", .int 5], [.str "a ", .int 7]]⟩

/-- An addon sheet with two data rows whose codes both normalize to `PC`. -/
def addonWsDup : Ws :=
  ⟨[[.str "KODE", .str "HARGA"], [.str "PC", .int 500], [.str "pc", .int 600]]⟩

/-- A mass-update sheet whose data row 7 has SKU `BASE` (column 6) and an
unparseable existing price `"x"` (column 7). -/
def goodWs : Ws :=
  ⟨[[], [], [], [], [], [], [.none, .none, .none, .none, .none, .str "BASE", .str "x"]]⟩

/-- A mass-update sheet whose data row 7 has SKU `BASE` and existing price
equal to the computed price Rp 9 300 000. -/
def eqWs : Ws :=
  ⟨[[], [], [], [], [], [], [.none, .none, .none, .none, .none, .str "BASE", .int 9300000]]⟩

/-- The float `-1500.5` (exactly representable) as an exact rational. -/
def qNegHalf : ℚ := ⟨-3001, 2, by decide, by decide⟩

/-- The float closest to `23.699`, idealized as the exact rational
`23699/1000` (the deviation of the binary float is far below the `1e-9`
threshold and does not affect any branch taken). -/
def qFrac : ℚ := ⟨23699, 1000, by decide, by decide⟩

/-! ### Dictionary lemmas -/

theorem dictGet?_eq_none_of_not_contains {α : Type} {d : AList α} {k : String}
    (h : dictContains d k = false) : dictGet? d k = Option.none := by
  unfold dictGet?
  rw [List.find?_eq_none.mpr]
  · rfl
  · intro p hp hbeq
    have : d.any (fun p => p.1 == k) = true := List.any_eq_true.mpr ⟨p, hp, hbeq⟩
    rw [dictContains] at h
    rw [h] at this
    exact Bool.false_ne_true this

theorem dictGetD_eq_of_get? {α : Type} {d : AList α} {k : String} {v : α} (dflt : α)
    (h : dictGet? d k = Option.some v) : dictGetD d k dflt = v := by
  unfold dictGetD
  rw [h]
  rfl

/-! ### The addon loop: strictness and the sum it computes -/

theorem addon_sum_loop_eq_none (am : AList ℤ) (addons : List String) (a : String)
    (ha : a ∈ addons) (hne : _norm_key (.str a) ≠ "")
    (hmiss : dictContains am (_norm_key (.str a)) = false) :
    addon_sum_loop am addons = Option.none := by
  induction addons with
  | nil => cases ha
  | cons b rest ih =>
    rcases List.mem_cons.mp ha with rfl | ha'
    · unfold addon_sum_loop
      rw [if_neg hne, dictGet?_eq_none_of_not_contains hmiss]
    · unfold addon_sum_loop
      by_cases hb : _norm_key (.str b) = ""
      · rw [if_pos hb]
        exact ih ha'
      · rw [if_neg hb]
        cases hg : dictGet? am (_norm_key (.str b)) with
        | none => rfl
        | some v => rw [ih ha']; rfl

theorem addon_sum_loop_eq_sum (am : AList ℤ) (addons : List String) (s : ℤ)
    (h : addon_sum_loop am addons = Option.some s) :
    s = (((addons.map (fun a => _norm_key (.str a))).filter
          (fun k => !(k == ""))).map (fun k => dictGetD am k 0)).sum := by
  induction addons generalizing s with
  | nil =>
    unfold addon_sum_loop at h
    simp only [Option.some.injEq] at h
    simp [← h]
  | cons b rest ih =>
    unfold addon_sum_loop at h
    by_cases hb : _norm_key (.str b) = ""
    · rw [if_pos hb] at h
      have := ih s h
      simp only [List.map_cons, List.filter_cons, hb]
      simpa using this
    · rw [if_neg hb] at h
      cases hg : dictGet? am (_norm_key (.str b)) with
      | none => rw [hg] at h; exact Option.noConfusion h
      | some v =>
        rw [hg] at h
        cases hr : addon_sum_loop am rest with
        | none => rw [hr] at h; exact Option.noConfusion h
        | some s' =>
          rw [hr] at h
          have hvs : v + s' = s := by simpa using h
          have hbeq : (_norm_key (.str b) == "") = false := by
            simpa using hb
          simp only [List.map_cons, List.filter_cons, hbeq, Bool.not_false, if_true,
            List.map_cons, List.sum_cons]
          rw [← hvs, ih s' hr, dictGetD_eq_of_get? 0 hg]

/-- C1: for a composite SKU whose (normalized) base code is in the pricelist
map, a single addon segment that is non-empty after normalization and absent
from the addon map forces `compute_final_price` to return `None` (no partial
price). -/
theorem compute_final_price_strict_addons (sku_full : String) (pl am : AList ℤ)
    (d : ℤ) (a : String) (ha : a ∈ (split_sku_addons sku_full).2)
    (hbase : dictContains pl (_norm_key (.str (split_sku_addons sku_full).1)) = true)
    (hne : _norm_key (.str a) ≠ "")
    (hmiss : dictContains am (_norm_key (.str a)) = false) :
    compute_final_price sku_full pl am d = Option.none := by
  simp only [compute_final_price]
  rw [addon_sum_loop_eq_none am _ a ha hne hmiss]
  split
  · rfl
  · rfl

theorem compute_final_price_strict_addons_witness :
    compute_final_price "BASE+XX" [("BASE", 9300000)] [("PC", 500000)] 0 = Option.none :=
  compute_final_price_strict_addons "BASE+XX" [("BASE", 9300000)] [("PC", 500000)] 0 "XX"
    (by decide) (by decide) (by decide) (by decide)

/-- C2: whenever `compute_final_price` returns a price, it is the base price
plus the sum of the resolved addon prices minus the discount, clamped to zero
from below. -/
theorem compute_final_price_eq_clamped_sum (sku_full : String) (pl am : AList ℤ)
    (d p : ℤ) (h : compute_final_price sku_full pl am d = Option.some p) :
    p = max 0 (dictGetD pl (_norm_key (.str (split_sku_addons sku_full).1)) 0
      + ((((split_sku_addons sku_full).2.map (fun a => _norm_key (.str a))).filter
            (fun k => !(k == ""))).map (fun k => dictGetD am k 0)).sum - d) := by
  simp only [compute_final_price] at h
  split at h
  · exact Option.noConfusion h
  · cases hl : addon_sum_loop am (split_sku_addons sku_full).2 with
    | none => rw [hl] at h; exact Option.noConfusion h
    | some s =>
      rw [hl] at h
      simp only [Option.some.injEq] at h
      rw [← addon_sum_loop_eq_sum am _ s hl, ← h]
      split
      · rename_i hlt
        rw [max_eq_left]
        omega
      · rename_i hge
        rw [max_eq_right]
        omega

theorem compute_final_price_eq_clamped_sum_witness :
    (0 : ℤ) = max 0 (dictGetD [("BASE", (9300000 : ℤ))]
        (_norm_key (.str (split_sku_addons "BASE+PC").1)) 0
      + ((((split_sku_addons "BASE+PC").2.map (fun a => _norm_key (.str a))).filter
            (fun k => !(k == ""))).map (fun k => dictGetD [("PC", (500000 : ℤ))] k 0)).sum
      - 10000000) :=
  compute_final_price_eq_clamped_sum "BASE+PC" [("BASE", 9300000)] [("PC", 500000)]
    10000000 0 (by decide)

/-- C8 counterexample: the parsers pass the sign of numeric inputs through,
so a negative integer cell yields a negative parsed value — not every parsed
value is a non-negative integer. -/
theorem parsers_can_return_negative :
    parse_rp (.int (-5)) = Option.some (-5) ∧ ((-5 : ℤ) < 0)
    ∧ parse_thousands_to_rp (.int (-5)) = Option.some (-5000) ∧ ((-5000 : ℤ) < 0) := by
  decide

/-- C8 (amended): on string inputs both parsers only return non-negative
integers, and every price computed by `compute_final_price` is non-negative;
numeric inputs, however, keep their sign. -/
theorem parsed_strings_and_computed_prices_nonneg (s sku : String)
    (pl am : AList ℤ) (d : ℤ) :
    (∀ v, parse_rp (.str s) = Option.some v → 0 ≤ v)
    ∧ (∀ v, parse_thousands_to_rp (.str s) = Option.some v → 0 ≤ v)
    ∧ (∀ p, compute_final_price sku pl am d = Option.some p → 0 ≤ p) := by
  refine ⟨?_, ?_, ?_⟩
  · intro v hv
    simp only [parse_rp] at hv
    split at hv
    · exact Option.noConfusion hv
    · split at hv
      · exact Option.noConfusion hv
      · simp only [Option.some.injEq] at hv
        rw [← hv]
        exact Int.natCast_nonneg _
  · intro v hv
    simp only [parse_thousands_to_rp] at hv
    split at hv
    · exact Option.noConfusion hv
    · split at hv
      · exact Option.noConfusion hv
      · simp only [Option.some.injEq] at hv
        rw [← hv]
        exact mul_nonneg (Int.natCast_nonneg _) (by omega)
  · intro p hp
    simp only [compute_final_price] at hp
    split at hp
    · exact Option.noConfusion hp
    · cases hl : addon_sum_loop am (split_sku_addons sku).2 with
      | none => rw [hl] at hp; exact Option.noConfusion hp
      | some s' =>
        rw [hl] at hp
        simp only [Option.some.injEq] at hp
        rw [← hp]
        split
        · omega
        · omega

theorem parsed_strings_and_computed_prices_nonneg_witness :
    (0 : ℤ) ≤ 23699 ∧ (0 : ℤ) ≤ 23699000 ∧ (0 : ℤ) ≤ 9800000 :=
  ⟨(parsed_strings_and_computed_prices_nonneg "Rp 23.699" "BASE+PC"
      [("BASE", 9300000)] [("PC", 500000)] 0).1 23699 (by decide),
   (parsed_strings_and_computed_prices_nonneg "Rp 23.699" "BASE+PC"
      [("BASE", 9300000)] [("PC", 500000)] 0).2.1 23699000 (by decide),
   (parsed_strings_and_computed_prices_nonneg "Rp 23.699" "BASE+PC"
      [("BASE", 9300000)] [("PC", 500000)] 0).2.2 9800000 (by decide)⟩

/-! ### String parsing: stripping does not change the digit characters -/

theorem _norm_str_str (t : String) : _norm_str (.str t) = strip t := rfl

theorem filter_dropWhile {p q : Char → Bool} (hpq : ∀ a, q a = true → p a = false) :
    ∀ l : List Char, (l.dropWhile q).filter p = l.filter p := by
  intro l
  induction l with
  | nil => rfl
  | cons a l ih =>
    by_cases hq : q a = true
    · rw [List.dropWhile_cons_of_pos hq, ih, List.filter_cons, hpq a hq]
      simp
    · rw [List.dropWhile_cons_of_neg hq]

theorem isWhitespace_not_isDigit (c : Char) (h : c.isWhitespace = true) :
    c.isDigit = false := by
  simp only [Char.isWhitespace, Bool.or_eq_true, decide_eq_true_eq] at h
  rcases h with ((h | h) | h) | h <;> subst h <;> decide

theorem toList_asString (l : List Char) : (List.asString l).toList = l := rfl

theorem digitsOf_strip (s : String) : digitsOf (strip s) = digitsOf s := by
  unfold digitsOf strip
  rw [toList_asString, List.filter_reverse,
    filter_dropWhile isWhitespace_not_isDigit, List.filter_reverse,
    filter_dropWhile isWhitespace_not_isDigit, List.reverse_reverse]

theorem strip_ne_empty_of_digits {s : String} (h : digitsOf s ≠ []) : strip s ≠ "" := by
  intro he
  apply h
  rw [← digitsOf_strip s, he]
  rfl

/-- C7: on string inputs the Scaled and Direct parsers extract exactly the
same digit characters, in order; when at least one digit is present both
succeed and `Scaled = Direct × 1000`, and when no digit is present both fail. -/
theorem scaled_vs_direct_on_strings (s : String) :
    (digitsOf s ≠ [] →
      parse_rp (.str s) = Option.some ((digitsToNat (digitsOf s) : ℤ))
      ∧ parse_thousands_to_rp (.str s) = Option.some ((digitsToNat (digitsOf s) : ℤ) * 1000))
    ∧ (digitsOf s = [] →
      parse_rp (.str s) = Option.none ∧ parse_thousands_to_rp (.str s) = Option.none) := by
  constructor
  · intro hne
    have hds := digitsOf_strip s
    have hse := strip_ne_empty_of_digits hne
    constructor
    · simp only [parse_rp, _norm_str_str]
      rw [hds, if_neg hse, if_neg hne]
    · simp only [parse_thousands_to_rp, _norm_str_str]
      rw [hds, if_neg hse, if_neg hne]
  · intro he
    have hds : digitsOf (strip s) = [] := (digitsOf_strip s).trans he
    by_cases hse : strip s = ""
    · constructor
      · simp only [parse_rp, _norm_str_str]
        rw [if_pos hse]
      · simp only [parse_thousands_to_rp, _norm_str_str]
        rw [if_pos hse]
    · constructor
      · simp only [parse_rp, _norm_str_str]
        rw [if_neg hse, hds, if_pos rfl]
      · simp only [parse_thousands_to_rp, _norm_str_str]
        rw [if_neg hse, hds, if_pos rfl]

theorem scaled_vs_direct_on_strings_witness :
    parse_rp (.str "Rp 23.699") = Option.some 23699
    ∧ parse_thousands_to_rp (.str "Rp 23.699") = Option.some 23699000 := by
  have h := (scaled_vs_direct_on_strings "Rp 23.699").1 (by decide)
  exact ⟨h.1.trans (by decide), h.2.trans (by decide)⟩

/-! ### Dict insertion: lookups after a left fold of insertions -/

theorem find?_eq_none_of_not_contains {α : Type} {d : AList α} {k : String}
    (h : dictContains d k = false) :
    d.find? (fun p => p.1 == k) = Option.none := by
  rw [List.find?_eq_none]
  intro p hp hbeq
  have : d.any (fun p => p.1 == k) = true := List.any_eq_true.mpr ⟨p, hp, hbeq⟩
  rw [dictContains] at h
  rw [h] at this
  exact Bool.false_ne_true this

theorem dictGet?_mapUpdate {α : Type} (k : String) (v : α) (k' : String) :
    ∀ m : AList α,
      dictGet? (m.map (fun p => if p.1 == k then (k, v) else p)) k'
        = if k' = k then (if dictContains m k then Option.some v else Option.none)
          else dictGet? m k' := by
  intro m
  induction m with
  | nil => simp [dictGet?, dictContains]
  | cons p m' ih =>
    by_cases hpk : p.1 = k
    · have hbeq : (p.1 == k) = true := by simpa using hpk
      by_cases hk' : k' = k
      · subst hk'
        simp only [List.map_cons, hbeq, if_true, dictContains, List.any_cons, hbeq,
          Bool.true_or, dictGet?]
        rw [List.find?_cons_of_pos _ (by simpa using rfl)]
        simp
      · simp only [List.map_cons, hbeq, if_true, dictGet?]
        rw [List.find?_cons_of_neg _ (by simpa using Ne.symm hk'),
          List.find?_cons_of_neg _ (by simp [hpk]; exact fun h => hk' h.symm)]
        have := ih
        simp only [dictGet?, if_neg hk'] at this
        rw [this, if_neg hk']
    · have hbeq : (p.1 == k) = false := by simpa using hpk
      by_cases hpk' : p.1 = k'
      · have hk' : ¬ k' = k := fun h => hpk (hpk'.trans h)
        simp only [List.map_cons, hbeq, if_false, dictGet?, if_neg hk']
        rw [List.find?_cons_of_pos _ (by simpa using hpk'),
          List.find?_cons_of_pos _ (by simpa using hpk')]
        simp
      · simp only [List.map_cons, hbeq, if_false, dictGet?]
        rw [List.find?_cons_of_neg _ (by simpa using hpk'),
          List.find?_cons_of_neg _ (by simpa using hpk')]
        have := ih
        simp only [dictGet?] at this
        rw [this]
        by_cases hk' : k' = k
        · simp only [if_pos hk', dictContains, List.any_cons, hbeq, Bool.false_or]
        · simp only [if_neg hk']

theorem dictGet?_insert {α : Type} (m : AList α) (k : String) (v : α) (k' : String) :
    dictGet? (dictInsert m k v) k'
      = if k' = k then Option.some v else dictGet? m k' := by
  unfold dictInsert
  by_cases hc : dictContains m k = true
  · rw [if_pos hc, dictGet?_mapUpdate, hc]
    split <;> rfl
  · have hc' : dictContains m k = false := by
      cases h : dictContains m k
      · rfl
      · exact absurd h hc
    rw [if_neg hc]
    unfold dictGet?
    rw [List.find?_append]
    by_cases hk' : k' = k
    · subst hk'
      rw [find?_eq_none_of_not_contains hc']
      simp
    · have : ([(k, v)].find? (fun p => p.1 == k')) = Option.none := by
        rw [List.find?_eq_none]
        intro p hp
        simp only [List.mem_singleton] at hp
        subst hp
        simpa using fun h => hk' h.symm
      rw [this, Option.or_none, if_neg hk']

theorem lastVal_cons {α : Type} (e : String × α) (es : List (String × α)) (k : String) :
    lastVal (e :: es) k
      = (lastVal es k).or (if e.1 == k then Option.some e.2 else Option.none) := by
  unfold lastVal
  rw [List.reverse_cons, List.find?_append]
  cases h : es.reverse.find? (fun p => p.1 == k) with
  | some p => simp
  | none =>
    cases hb : (e.1 == k) with
    | true => simp [List.find?, hb]
    | false => simp [List.find?, hb]

theorem dictGet?_foldl_insert {α : Type} (k : String) :
    ∀ (entries : List (String × α)) (init : AList α),
      dictGet? (entries.foldl (fun m kv => dictInsert m kv.1 kv.2) init) k
        = (lastVal entries k).or (dictGet? init k) := by
  intro entries
  induction entries with
  | nil =>
    intro init
    simp [lastVal]
  | cons e es ih =>
    intro init
    rw [List.foldl_cons, ih, lastVal_cons, Option.or_assoc]
    congr 1
    rw [dictGet?_insert]
    by_cases hk : k = e.1
    · rw [if_pos hk]
      have : (e.1 == k) = true := by simpa using hk.symm
      rw [this]
      simp
    · rw [if_neg hk]
      have : (e.1 == k) = false := by simpa using fun h => hk h.symm
      rw [this]
      simp

/-- C10: in both loaders, when several data rows normalize to the same code
key (with a parseable price), the loaded map holds the price contributed by
the bottom-most such row (`lastVal`); earlier rows are silently overwritten. -/
theorem loader_maps_keep_last_duplicate (plws aws : Ws) (plm am : AList ℤ)
    (hrow ahr sku_col m4_col code_col price_col : ℕ) (k k2 : String) :
    (load_pricelist_map plws = Except.ok (plm, hrow) →
      pl_cols plws hrow = (Option.some sku_col, Option.some m4_col) →
      dictGet? plm k = lastVal (pl_entries plws hrow sku_col m4_col) k)
    ∧ (load_addon_map aws = Except.ok am →
      find_header_row aws [["HARGA", "PRICE"], ["KODE", "VARIAN", "STANDARISASI", "ADDON"]] 80
        = Option.some ahr →
      addon_code_col (map_headers aws ahr) = Option.some code_col →
      addon_price_col (map_headers aws ahr) = Option.some price_col →
      dictGet? am k2 = lastVal (addon_entries aws ahr code_col price_col) k2) := by
  constructor
  · intro hpl hcols
    unfold load_pricelist_map at hpl
    cases hfr : find_header_row plws [["KODEBARANG", "KODE BARANG"], ["M4"]] 80 with
    | none => rw [hfr] at hpl; exact Except.noConfusion hpl
    | some hr =>
      rw [hfr] at hpl
      dsimp only at hpl
      cases hpc : pl_cols plws hr with
      | mk sc mc =>
        rw [hpc] at hpl
        cases sc with
        | none => exact Except.noConfusion hpl
        | some sc' =>
          cases mc with
          | none => exact Except.noConfusion hpl
          | some mc' =>
            dsimp only at hpl
            by_cases hemp : (List.foldl (fun (m : AList ℤ) kv => dictInsert m kv.1 kv.2) []
                (pl_entries plws hr sc' mc')) = []
            · rw [if_pos hemp] at hpl
              exact Except.noConfusion hpl
            · rw [if_neg hemp] at hpl
              have hinj := hpl
              simp only [Except.ok.injEq, Prod.mk.injEq] at hinj
              obtain ⟨hm, hhr⟩ := hinj
              subst hhr
              rw [hpc] at hcols
              simp only [Prod.mk.injEq, Option.some.injEq] at hcols
              obtain ⟨hsc, hmc⟩ := hcols
              subst hsc
              subst hmc
              rw [← hm, dictGet?_foldl_insert]
              simp [dictGet?]
  · intro ha hfr hcc hpc
    unfold load_addon_map at ha
    rw [hfr] at ha
    dsimp only at ha
    rw [hcc, hpc] at ha
    simp only [Except.ok.injEq] at ha
    rw [← ha, dictGet?_foldl_insert]
    simp [dictGet?]

theorem loader_maps_keep_last_duplicate_witness :
    dictGet? [("A", (7000 : ℤ))] "A" = lastVal (pl_entries plWsDup 1 1 2) "A"
    ∧ dictGet? [("PC", (600000 : ℤ))] "PC" = lastVal (addon_entries addonWsDup 1 1 2) "PC" :=
  ⟨(loader_maps_keep_last_duplicate plWsDup addonWsDup [("A", 7000)] [("PC", 600000)]
      1 1 1 2 1 2 "A" "PC").1 (by rfl) (by rfl),
   (loader_maps_keep_last_duplicate plWsDup addonWsDup [("A", 7000)] [("PC", 600000)]
      1 1 1 2 1 2 "A" "PC").2 (by rfl) (by rfl) (by rfl) (by rfl)⟩

/-! ### The per-row emission gate of the batch reconciler -/

theorem getElem?_map_range' (f : ℕ → PyVal) (n i : ℕ) (h : i < n) :
    ((List.range' 1 n).map f)[i]? = Option.some (f (1 + i)) := by
  rw [List.getElem?_map, List.getElem?_range' 1 1 h]
  simp

/-- C3: a data row whose computed price equals its existing parsed price is
never emitted; a row whose existing price cell does not parse while a price
is computed IS emitted, with the price cell overwritten by the computed
amount and all other cells (up to the template width) copied verbatim. -/
theorem row_output_emits_only_changes (pl am : AList ℤ) (d : ℤ) (max_col : ℕ)
    (ws : Ws) (r : ℕ) :
    (∀ p, parse_rp (ws.cell r PRICE_COL) = Option.some p →
      compute_final_price (_norm_str (ws.cell r SKU_COL)) pl am d = Option.some p →
      row_output pl am d max_col ws r = Option.none)
    ∧ (∀ np, parse_rp (ws.cell r PRICE_COL) = Option.none →
      compute_final_price (_norm_str (ws.cell r SKU_COL)) pl am d = Option.some np →
      _norm_str (ws.cell r SKU_COL) ≠ "" →
      ∃ out, row_output pl am d max_col ws r = Option.some out
        ∧ out.length = max max_col PRICE_COL
        ∧ out[PRICE_COL - 1]? = Option.some (PyVal.int np)
        ∧ ∀ c, 1 ≤ c → c ≤ max_col → c ≠ PRICE_COL →
            out[c - 1]? = Option.some (ws.cell r c)) := by
  constructor
  · intro p hp hc
    unfold row_output
    by_cases hsku : _norm_str (ws.cell r SKU_COL) = ""
    · rw [if_pos hsku]
    · rw [if_neg hsku, hc]
      dsimp only
      rw [hp]
      dsimp only
      rw [if_pos rfl]
  · intro np hp hc hsku
    unfold row_output
    rw [if_neg hsku, hc]
    dsimp only
    rw [hp]
    refine ⟨emit_row ws r max_col np, rfl, ?_, ?_, ?_⟩
    · rw [emit_row, List.length_map, List.length_range']
    · have h6 : PRICE_COL - 1 < max max_col PRICE_COL := by
        have : PRICE_COL - 1 < PRICE_COL := by decide
        omega
      rw [emit_row, getElem?_map_range' _ _ _ h6]
      have : 1 + (PRICE_COL - 1) = PRICE_COL := by decide
      rw [this, if_pos rfl]
    · intro c h1 h2 h7
      have hlt : c - 1 < max max_col PRICE_COL := by omega
      rw [emit_row, getElem?_map_range' _ _ _ hlt]
      have : 1 + (c - 1) = c := by omega
      rw [this, if_neg h7, if_pos h2]

theorem row_output_emits_only_changes_witness :
    row_output [("BASE", 9300000)] [] 0 7 eqWs 7 = Option.none
    ∧ ∃ out, row_output [("BASE", 9300000)] [] 0 7 goodWs 7 = Option.some out
        ∧ out.length = max 7 PRICE_COL
        ∧ out[PRICE_COL - 1]? = Option.some (PyVal.int 9300000)
        ∧ ∀ c, 1 ≤ c → c ≤ 7 → c ≠ PRICE_COL →
            out[c - 1]? = Option.some (goodWs.cell 7 c) :=
  ⟨(row_output_emits_only_changes [("BASE", 9300000)] [] 0 7 eqWs 7).1 9300000
      (by rfl) (by rfl),
   (row_output_emits_only_changes [("BASE", 9300000)] [] 0 7 goodWs 7).2 9300000
      (by rfl) (by rfl) (by decide)⟩

/-! ### The file loop of the batch reconciler -/

theorem flat_rows_cons_ok (plm am : AList ℤ) (d : ℤ) (mc : ℕ)
    (f : String × Except String Ws) (w : Ws) (hf : f.2 = Except.ok w)
    (fs : List (String × Except String Ws)) :
    flat_rows plm am d mc (f :: fs) = file_rows plm am d mc w ++ flat_rows plm am d mc fs := by
  unfold flat_rows
  simp only [List.filterMap_cons, hf, List.flatten_cons]

theorem flat_rows_cons_error (plm am : AList ℤ) (d : ℤ) (mc : ℕ)
    (f : String × Except String Ws) (e : String) (hf : f.2 = Except.error e)
    (fs : List (String × Except String Ws)) :
    flat_rows plm am d mc (f :: fs) = flat_rows plm am d mc fs := by
  unfold flat_rows
  simp only [List.filterMap_cons, hf]

theorem flat_issues_cons_ok (f : String × Except String Ws) (w : Ws)
    (hf : f.2 = Except.ok w) (fs : List (String × Except String Ws)) :
    flat_issues (f :: fs) = flat_issues fs := by
  unfold flat_issues
  simp only [List.filterMap_cons, hf]

theorem flat_issues_cons_error (f : String × Except String Ws) (e : String)
    (hf : f.2 = Except.error e) (fs : List (String × Except String Ws)) :
    flat_issues (f :: fs) = ⟨f.1, "", "", "", "Gagal proses file: " ++ e⟩ :: flat_issues fs := by
  unfold flat_issues
  simp only [List.filterMap_cons, hf]

theorem flat_rows_append (plm am : AList ℤ) (d : ℤ) (mc : ℕ)
    (xs ys : List (String × Except String Ws)) :
    flat_rows plm am d mc (xs ++ ys) = flat_rows plm am d mc xs ++ flat_rows plm am d mc ys := by
  unfold flat_rows
  rw [List.filterMap_append, List.flatten_append]

theorem flat_issues_append (xs ys : List (String × Except String Ws)) :
    flat_issues (xs ++ ys) = flat_issues xs ++ flat_issues ys := by
  unfold flat_issues
  rw [List.filterMap_append]

theorem flat_issues_eq_nil (fs : List (String × Except String Ws))
    (hok : ∀ f ∈ fs, ∃ w, f.2 = Except.ok w) : flat_issues fs = [] := by
  induction fs with
  | nil => rfl
  | cons f fs ih =>
    obtain ⟨w, hw⟩ := hok f (List.mem_cons_self f fs)
    rw [flat_issues_cons_ok f w hw]
    exact ih (fun g hg => hok g (List.mem_cons_of_mem f hg))

theorem foldl_reconcile_split (plm am : AList ℤ) (d : ℤ) (mc : ℕ)
    (fs : List (String × Except String Ws)) :
    ∀ (a : List (List PyVal)) (b : List Issue),
      fs.foldl (reconcile_step plm am d mc) (a, b)
        = (a ++ flat_rows plm am d mc fs, b ++ flat_issues fs) := by
  induction fs with
  | nil => intro a b; simp [flat_rows, flat_issues]
  | cons f fs ih =>
    intro a b
    rw [List.foldl_cons]
    cases hf : f.2 with
    | error e =>
      have hstep : reconcile_step plm am d mc (a, b) f
          = (a, b ++ [⟨f.1, "", "", "", "Gagal proses file: " ++ e⟩]) := by
        unfold reconcile_step
        rw [hf]
      rw [hstep, ih, flat_rows_cons_error plm am d mc f e hf, flat_issues_cons_error f e hf,
        List.append_assoc]
      rfl
    | ok w =>
      have hstep : reconcile_step plm am d mc (a, b) f
          = (a ++ file_rows plm am d mc w, b) := by
        unfold reconcile_step
        rw [hf]
      rw [hstep, ih, flat_rows_cons_ok plm am d mc f w hf, flat_issues_cons_ok f w hf,
        List.append_assoc]

/-- C4 counterexample: a mass-update file that fails to load and stands FIRST
in the list aborts the whole run (its bytes are also the output template, and
that load is outside the `try`): no issue record is produced and no rows of
the other files are emitted — even though the same other file, processed on
its own, does produce an output row. -/
theorem process_first_file_failure_aborts :
    process_shopee_files [("bad", Except.error "boom"), ("good", Except.ok goodWs)]
        plWsEx Option.none 0
      = Except.error (PyError.loadError "boom")
    ∧ process_shopee_files [("good", Except.ok goodWs)] plWsEx Option.none 0
      = Except.ok ([[PyVal.none, PyVal.none, PyVal.none, PyVal.none, PyVal.none,
          PyVal.str "BASE", PyVal.int 9300000]], []) := by
  constructor
  · rfl
  · rfl

/-- C4 (amended): per-file failures are isolated for every file except the
first: a non-first file whose load raises contributes exactly one issue
record carrying its name and the exception text, and the rows of all other
files are still emitted, in order. -/
theorem process_isolates_nonfirst_file_failure
    (n0 : String) (tws : Ws) (pre0 post : List (String × Except String Ws))
    (name e : String) (pl_ws : Ws) (plm : AList ℤ) (hrow : ℕ) (d : ℤ)
    (hpl : load_pricelist_map pl_ws = Except.ok (plm, hrow))
    (hok : ∀ f ∈ pre0 ++ post, ∃ w, f.2 = Except.ok w)
    (hname : name ≠ "") :
    ∃ rows issues,
      process_shopee_files (((n0, Except.ok tws) :: pre0) ++ (name, Except.error e) :: post)
          pl_ws Option.none d = Except.ok (rows, issues)
      ∧ issues.filter (fun i => i.file == name)
          = [⟨name, "", "", "", "Gagal proses file: " ++ e⟩]
      ∧ rows = flat_rows plm [] d tws.maxCol ((n0, Except.ok tws) :: pre0)
             ++ flat_rows plm [] d tws.maxCol post := by
  have hpre0 : ∀ f ∈ pre0, ∃ w, f.2 = Except.ok w :=
    fun f hf => hok f (List.mem_append_left _ hf)
  have hpost : ∀ f ∈ post, ∃ w, f.2 = Except.ok w :=
    fun f hf => hok f (List.mem_append_right _ hf)
  have hfi : flat_issues (((n0, Except.ok tws) :: pre0) ++ (name, Except.error e) :: post)
      = [⟨name, "", "", "", "Gagal proses file: " ++ e⟩] := by
    rw [List.cons_append, flat_issues_cons_ok (n0, Except.ok tws) tws rfl, flat_issues_append,
      flat_issues_eq_nil pre0 hpre0, flat_issues_cons_error (name, Except.error e) e rfl,
      flat_issues_eq_nil post hpost]
    rfl
  have hfr : flat_rows plm [] d tws.maxCol
        (((n0, Except.ok tws) :: pre0) ++ (name, Except.error e) :: post)
      = flat_rows plm [] d tws.maxCol ((n0, Except.ok tws) :: pre0)
        ++ flat_rows plm [] d tws.maxCol post := by
    rw [flat_rows_append, flat_rows_cons_error plm [] d tws.maxCol (name, Except.error e) e rfl]
  unfold process_shopee_files
  rw [hpl]
  dsimp only [List.cons_append]
  rw [foldl_reconcile_split]
  unfold finalize
  rw [List.nil_append, List.nil_append, ← List.cons_append, hfi, hfr]
  refine ⟨_, _, rfl, ?_, rfl⟩
  by_cases hlen : (flat_rows plm [] d tws.maxCol ((n0, Except.ok tws) :: pre0)
      ++ flat_rows plm [] d tws.maxCol post).length = 0
  · rw [if_pos hlen]
    have h1 : ((⟨name, "", "", "", "Gagal proses file: " ++ e⟩ : Issue).file == name) = true := by
      simp
    have h2 : ((emptyNotice).file == name) = false := by
      simp only [emptyNotice]
      exact beq_eq_false_iff_ne.mpr (fun h => hname h.symm)
    simp [List.filter_cons, List.filter_append, h1, h2]
  · rw [if_neg hlen]
    simp [List.filter_cons]

theorem process_isolates_nonfirst_file_failure_witness :
    ∃ rows issues,
      process_shopee_files ((("good", Except.ok goodWs) :: [])
          ++ ("bad", Except.error "boom") :: []) plWsEx Option.none 0
        = Except.ok (rows, issues)
      ∧ issues.filter (fun i => i.file == "bad")
          = [⟨"bad", "", "", "", "Gagal proses file: " ++ "boom"⟩]
      ∧ rows = flat_rows [("BASE", 9300000)] [] 0 goodWs.maxCol
            (("good", Except.ok goodWs) :: [])
          ++ flat_rows [("BASE", 9300000)] [] 0 goodWs.maxCol [] :=
  process_isolates_nonfirst_file_failure "good" goodWs [] [] "bad" "boom" plWsEx
    [("BASE", 9300000)] 1 0 (by rfl) (by intro f hf; simp at hf) (by decide)

/-- C5 counterexample: on an empty mass-file list (with a loadable pricelist)
`process_shopee_files` fails with an `IndexError` from `mass_files[0]` — not
with a `ConfigurationError` (the `ValueError` raises of the source). -/
theorem process_empty_mass_files_not_value_error :
    process_shopee_files [] plWsEx Option.none 0
      = Except.error (PyError.indexError "list index out of range")
    ∧ (match process_shopee_files [] plWsEx Option.none 0 with
       | Except.error (PyError.valueError _) => False
       | _ => True) := by
  constructor
  · rfl
  · trivial

/-- C5 (amended): whenever the pricelist loads successfully, calling
`process_shopee_files` with an empty mass-file list raises the `IndexError`
produced by `mass_files[0]`; it neither returns normally nor raises a
`ConfigurationError`. -/
theorem process_empty_mass_files_spec (pl_ws : Ws) (plm : AList ℤ) (hrow : ℕ) (d : ℤ)
    (hpl : load_pricelist_map pl_ws = Except.ok (plm, hrow)) :
    process_shopee_files [] pl_ws Option.none d
      = Except.error (PyError.indexError "list index out of range") := by
  unfold process_shopee_files
  rw [hpl]

theorem process_empty_mass_files_spec_witness :
    process_shopee_files [] plWsEx Option.none 0
      = Except.error (PyError.indexError "list index out of range") :=
  process_empty_mass_files_spec plWsEx [("BASE", 9300000)] 1 0 (by rfl)

/-! ### The header locator -/

theorem isPrefixOf_spec :
    ∀ (l₁ l₂ : List Char), l₁.isPrefixOf l₂ = true ↔ l₁ <+: l₂ := by
  intro l₁
  induction l₁ with
  | nil => intro l₂; simp [List.isPrefixOf]
  | cons a l₁ ih =>
    intro l₂
    cases l₂ with
    | nil => simp [List.isPrefixOf]
    | cons b l₂ =>
      simp only [List.isPrefixOf, Bool.and_eq_true, beq_iff_eq, List.cons_prefix_cons]
      rw [ih l₂]

theorem strContains_iff (hay pat : String) :
    strContains hay pat = true ↔ pat.toList <:+: hay.toList := by
  unfold strContains
  rw [List.any_eq_true]
  constructor
  · rintro ⟨t, ht, hp⟩
    rw [List.mem_tails] at ht
    rw [isPrefixOf_spec] at hp
    obtain ⟨s, hs⟩ := ht
    obtain ⟨r, hr⟩ := hp
    exact ⟨s, r, by rw [List.append_assoc, hr, hs]⟩
  · rintro ⟨s, t, h⟩
    refine ⟨pat.toList ++ t, ?_, ?_⟩
    · rw [List.mem_tails]
      exact ⟨s, by rw [← List.append_assoc, h]⟩
    · rw [isPrefixOf_spec]
      exact ⟨t, rfl⟩

theorem row_ok_iff (ws : Ws) (groups : List (List String)) (r : ℕ) :
    row_ok ws groups r = true ↔ row_matches ws groups r := by
  unfold row_ok row_matches
  simp only [List.all_eq_true, List.any_eq_true, strContains_iff]

theorem find?_some_first {α : Type} (p : α → Bool) :
    ∀ (l : List α) (x : α), l.find? p = Option.some x →
      ∃ i, i < l.length ∧ l[i]? = Option.some x ∧ p x = true
        ∧ ∀ j, j < i → ∀ y, l[j]? = Option.some y → p y = false := by
  intro l
  induction l with
  | nil => intro x h; exact Option.noConfusion h
  | cons a l ih =>
    intro x h
    cases hp : p a with
    | true =>
      rw [List.find?_cons_of_pos _ hp] at h
      have hax : a = x := by simpa using h
      subst hax
      exact ⟨0, by simp, by simp, hp, fun j hj => absurd hj (Nat.not_lt_zero j)⟩
    | false =>
      rw [List.find?_cons_of_neg _ (by simp [hp])] at h
      obtain ⟨i, hi, hgx, hpx, hprev⟩ := ih x h
      refine ⟨i + 1, by simpa using hi, by simpa using hgx, hpx, ?_⟩
      intro j hj y hy
      cases j with
      | zero =>
        have : y = a := by simpa using hy.symm
        subst this
        exact hp
      | succ j' =>
        rw [List.getElem?_cons_succ] at hy
        exact hprev j' (by omega) y hy

/-- C9: `find_header_row` returns the 1-based index of the first row, within
the window `1 .. min scan_rows ws.max_row`, on which every keyword group has
a member occurring case-insensitively in the row's concatenated cell text,
and `none` exactly when no row of that window qualifies. -/
theorem find_header_row_spec (ws : Ws) (groups : List (List String)) (scan_rows : ℕ) :
    (∀ r, find_header_row ws groups scan_rows = Option.some r →
      1 ≤ r ∧ r ≤ min scan_rows ws.maxRow ∧ row_matches ws groups r
        ∧ ∀ s, 1 ≤ s → s < r → ¬ row_matches ws groups s)
    ∧ (find_header_row ws groups scan_rows = Option.none →
      ∀ s, 1 ≤ s → s ≤ min scan_rows ws.maxRow → ¬ row_matches ws groups s) := by
  constructor
  · intro r h
    unfold find_header_row at h
    obtain ⟨i, hi, hgx, hpx, hprev⟩ := find?_some_first (row_ok ws groups) _ r h
    rw [List.length_range'] at hi
    rw [List.getElem?_range' 1 1 hi] at hgx
    have hr : r = 1 + i := by simpa using hgx.symm
    subst hr
    refine ⟨by omega, by omega, (row_ok_iff ws groups _).mp hpx, ?_⟩
    intro s h1 hs hm
    have hj : s - 1 < i := by omega
    have hjlt : s - 1 < min scan_rows ws.maxRow := by omega
    have hgj : (List.range' 1 (min scan_rows ws.maxRow))[s - 1]? = Option.some s := by
      rw [List.getElem?_range' 1 1 hjlt]
      have : 1 + 1 * (s - 1) = s := by omega
      rw [this]
    have := hprev (s - 1) hj s hgj
    rw [← row_ok_iff ws groups s] at hm
    rw [this] at hm
    exact Bool.false_ne_true hm
  · intro h s h1 h2 hm
    unfold find_header_row at h
    have hmem : s ∈ List.range' 1 (min scan_rows ws.maxRow) := by
      have : s = 1 + 1 * (s - 1) := by omega
      rw [this]
      exact List.mem_range'.mpr ⟨s - 1, by omega, rfl⟩
    have := List.find?_eq_none.mp h s hmem
    rw [← row_ok_iff ws groups s] at hm
    exact this hm

theorem find_header_row_spec_witness :
    1 ≤ 1 ∧ 1 ≤ min 80 (Ws.maxRow plWsEx)
    ∧ row_matches plWsEx [["KODEBARANG", "KODE BARANG"], ["M4"]] 1
    ∧ ∀ s, 1 ≤ s → s < 1 → ¬ row_matches plWsEx [["KODEBARANG", "KODE BARANG"], ["M4"]] s :=
  (find_header_row_spec plWsEx [["KODEBARANG", "KODE BARANG"], ["M4"]] 80).1 1 (by rfl)

/-! ### The float branch of the Scaled Parser -/

theorem pyRoundND_congr (n d n' d' : ℤ) (hd : 0 < d) (hd' : 0 < d')
    (h : n * d' = n' * d) : pyRoundND n d = pyRoundND n' d' := by
  have hdec := Int.ediv_add_emod n d
  have hdec' := Int.ediv_add_emod n' d'
  have hr0 : 0 ≤ n % d := Int.emod_nonneg n (by omega)
  have hr0' : 0 ≤ n' % d' := Int.emod_nonneg n' (by omega)
  have hrlt : n % d < d := Int.emod_lt_of_pos n hd
  have hrlt' : n' % d' < d' := Int.emod_lt_of_pos n' hd'
  have hfle : d' * (n / d) ≤ n' := by
    have h1 : d * (n / d) ≤ n := by linarith
    have h2 : d' * (d * (n / d)) ≤ d' * n := by
      exact mul_le_mul_of_nonneg_left h1 (le_of_lt hd')
    have h3 : d' * n = d * n' := by linear_combination h
    have h4 : d * (d' * (n / d)) ≤ d * n' := by
      calc d * (d' * (n / d)) = d' * (d * (n / d)) := by ring
        _ ≤ d' * n := h2
        _ = d * n' := h3
    exact le_of_mul_le_mul_left h4 hd
  have hflt : n' < d' * (n / d) + d' := by
    have h1 : n < d * (n / d) + d := by linarith
    have h2 : d' * n < d' * (d * (n / d) + d) := by
      exact mul_lt_mul_of_pos_left h1 hd'
    have h3 : d' * n = d * n' := by linear_combination h
    have h4 : d * n' < d * (d' * (n / d) + d') := by
      calc d * n' = d' * n := h3.symm
        _ < d' * (d * (n / d) + d) := h2
        _ = d * (d' * (n / d) + d') := by ring
    exact lt_of_mul_lt_mul_left h4 (le_of_lt hd)
  have hf : n' / d' = n / d := by
    have hle : n / d ≤ n' / d' := (Int.le_ediv_iff_mul_le hd').mpr (by linarith)
    have hlt : n' / d' < n / d + 1 := (Int.ediv_lt_iff_lt_mul hd').mpr (by linarith)
    omega
  have hr' : n' % d' = n' - d' * (n / d) := by
    rw [← hf]
    linarith
  have hcond1 : 2 * (n % d) < d ↔ 2 * (n' % d') < d' := by
    constructor
    · intro hc
      have h1 : 2 * n < d * (2 * (n / d) + 1) := by nlinarith
      have h2 : d' * (2 * n) < d' * (d * (2 * (n / d) + 1)) :=
        mul_lt_mul_of_pos_left h1 hd'
      have h3 : d' * (2 * n) = d * (2 * n') := by linear_combination 2 * h
      have h4 : d * (2 * n') < d * (d' * (2 * (n / d) + 1)) := by
        calc d * (2 * n') = d' * (2 * n) := h3.symm
          _ < d' * (d * (2 * (n / d) + 1)) := h2
          _ = d * (d' * (2 * (n / d) + 1)) := by ring
      have h5 : 2 * n' < d' * (2 * (n / d) + 1) :=
        lt_of_mul_lt_mul_left h4 (le_of_lt hd)
      rw [hr']
      nlinarith
    · intro hc
      have h1 : 2 * n' < d' * (2 * (n / d) + 1) := by nlinarith
      have h2 : d * (2 * n') < d * (d' * (2 * (n / d) + 1)) :=
        mul_lt_mul_of_pos_left h1 hd
      have h3 : d * (2 * n') = d' * (2 * n) := by linear_combination (-2) * h
      have h4 : d' * (2 * n) < d' * (d * (2 * (n / d) + 1)) := by
        calc d' * (2 * n) = d * (2 * n') := h3.symm
          _ < d * (d' * (2 * (n / d) + 1)) := h2
          _ = d' * (d * (2 * (n / d) + 1)) := by ring
      have h5 : 2 * n < d * (2 * (n / d) + 1) :=
        lt_of_mul_lt_mul_left h4 (le_of_lt hd')
      nlinarith
  have hcond2 : d < 2 * (n % d) ↔ d' < 2 * (n' % d') := by
    constructor
    · intro hc
      have h1 : d * (2 * (n / d) + 1) < 2 * n := by nlinarith
      have h2 : d' * (d * (2 * (n / d) + 1)) < d' * (2 * n) :=
        mul_lt_mul_of_pos_left h1 hd'
      have h3 : d' * (2 * n) = d * (2 * n') := by linear_combination 2 * h
      have h4 : d * (d' * (2 * (n / d) + 1)) < d * (2 * n') := by
        calc d * (d' * (2 * (n / d) + 1)) = d' * (d * (2 * (n / d) + 1)) := by ring
          _ < d' * (2 * n) := h2
          _ = d * (2 * n') := h3
      have h5 : d' * (2 * (n / d) + 1) < 2 * n' :=
        lt_of_mul_lt_mul_left h4 (le_of_lt hd)
      rw [hr']
      nlinarith
    · intro hc
      have h1 : d' * (2 * (n / d) + 1) < 2 * n' := by nlinarith
      have h2 : d * (d' * (2 * (n / d) + 1)) < d * (2 * n') :=
        mul_lt_mul_of_pos_left h1 hd
      have h3 : d * (2 * n') = d' * (2 * n) := by linear_combination (-2) * h
      have h4 : d' * (d * (2 * (n / d) + 1)) < d' * (2 * n) := by
        calc d' * (d * (2 * (n / d) + 1)) = d * (d' * (2 * (n / d) + 1)) := by ring
          _ < d * (2 * n') := h2
          _ = d' * (2 * n) := h3
      have h5 : d * (2 * (n / d) + 1) < 2 * n :=
        lt_of_mul_lt_mul_left h4 (le_of_lt hd')
      nlinarith
  unfold pyRoundND
  rw [hf]
  exact (if_congr hcond1.symm rfl (if_congr hcond2.symm rfl rfl)).symm

theorem pyRound_mul_thousand (q : ℚ) :
    pyRound (q * 1000) = pyRoundND (q.num * 1000) (q.den : ℤ) := by
  unfold pyRound
  apply pyRoundND_congr
  · exact_mod_cast (q * 1000).den_pos
  · exact_mod_cast q.den_pos
  · have hd1 : ((q * 1000).den : ℚ) ≠ 0 := by
      have := (q * 1000).den_pos
      exact_mod_cast this.ne'
    have hd2 : ((q.den : ℕ) : ℚ) ≠ 0 := by
      have := q.den_pos
      exact_mod_cast this.ne'
    have h1 : ((q * 1000).num : ℚ) = (q * 1000) * (((q * 1000).den : ℕ) : ℚ) :=
      (div_eq_iff hd1).mp (Rat.num_div_den (q * 1000))
    have h2 : ((q.num : ℤ) : ℚ) = q * ((q.den : ℕ) : ℚ) :=
      (div_eq_iff hd2).mp (Rat.num_div_den q)
    have key : ((q * 1000).num : ℚ) * ((q.den : ℕ) : ℚ)
        = ((q.num : ℚ) * 1000) * (((q * 1000).den : ℕ) : ℚ) := by
      rw [h1, h2]
      ring
    exact_mod_cast key

/-- The integer test in the float branch of `parse_thousands_to_rp` is the
exact form of Python's `abs(value - round(value)) > 1e-9` on `num/den`. -/
theorem frac_gt_eps_iff (q : ℚ) (n : ℤ) :
    ((q.den : ℤ) < 1000000000 * |q.num - n * (q.den : ℤ)|) ↔
      (1 : ℚ)/1000000000 < |q - (n : ℚ)| := by
  have hd0 : (0 : ℚ) < ((q.den : ℕ) : ℚ) := by exact_mod_cast q.den_pos
  have hsub : q - (n : ℚ) = ((q.num - n * (q.den : ℤ) : ℤ) : ℚ) / ((q.den : ℕ) : ℚ) := by
    rw [eq_div_iff (ne_of_gt hd0)]
    have h2 : ((q.num : ℤ) : ℚ) = q * ((q.den : ℕ) : ℚ) :=
      (div_eq_iff (ne_of_gt hd0)).mp (Rat.num_div_den q)
    push_cast
    rw [sub_mul, h2]
  rw [hsub, abs_div, abs_of_pos hd0,
    div_lt_div_iff (by norm_num : (0 : ℚ) < 1000000000) hd0, ← Int.cast_abs]
  have hcast : ((q.den : ℤ) < 1000000000 * |q.num - n * (q.den : ℤ)|) ↔
      (((q.den : ℤ) : ℚ) < ((1000000000 * |q.num - n * (q.den : ℤ)| : ℤ) : ℚ)) := by
    exact_mod_cast Iff.rfl
  rw [hcast]
  push_cast
  constructor
  · intro h; linarith
  · intro h; linarith

/-- C6 counterexample: the code's float branch tests `value < 1000` with a
SIGNED comparison, not the magnitude. The float `-1500.5` has magnitude
`1500.5 ≥ 1000`, so by the claim it should round to the nearest integer
(`-1500`, ties to even) and scale to `-1500000`; the code instead takes the
fractional-reinterpretation branch and returns `-1500500000`. -/
theorem parse_thousands_magnitude_counterexample :
    (1000 : ℚ) ≤ |qNegHalf|
    ∧ parse_thousands_to_rp (.float qNegHalf) = Option.some (-1500500000)
    ∧ pyRound qNegHalf * 1000 = -1500000
    ∧ ((-1500500000 : ℤ) ≠ -1500000) := by
  refine ⟨?_, by decide, by decide, by decide⟩
  rw [le_abs]
  right
  rw [le_neg]
  decide

/-- C6 (amended): for every finite float strictly below `1000` (signed, so in
particular every negative float) whose value is farther than `1e-9` from the
nearest integer, the Scaled Parser reinterprets the fractional digits as the
thousands component (`round(value × 1000) × 1000`); for every other finite
float (value `≥ 1000`, or within `1e-9` of an integer) it rounds to the
nearest integer (ties to even) and multiplies by `1000`; `NaN` yields no
value. -/
theorem parse_thousands_float_spec (q : ℚ) :
    (q < 1000 → (1 : ℚ)/1000000000 < |q - (pyRound q : ℚ)| →
      parse_thousands_to_rp (.float q) = Option.some (pyRound (q * 1000) * 1000))
    ∧ ((1000 ≤ q ∨ |q - (pyRound q : ℚ)| ≤ (1 : ℚ)/1000000000) →
      parse_thousands_to_rp (.float q) = Option.some (pyRound q * 1000))
    ∧ parse_thousands_to_rp .nan = Option.none := by
  refine ⟨?_, ?_, rfl⟩
  · intro hlt hfar
    simp only [parse_thousands_to_rp]
    rw [if_pos ⟨hlt, (frac_gt_eps_iff q (pyRound q)).mpr hfar⟩, pyRound_mul_thousand]
  · intro hother
    simp only [parse_thousands_to_rp]
    have hcond : ¬(q < 1000 ∧ (q.den : ℤ) < 1000000000 * |q.num - pyRound q * (q.den : ℤ)|) := by
      rintro ⟨hlt, hfar⟩
      rcases hother with hge | hnear
      · exact absurd hlt (not_lt.mpr hge)
      · exact absurd ((frac_gt_eps_iff q (pyRound q)).mp hfar) (not_lt.mpr hnear)
    rw [if_neg hcond]

theorem parse_thousands_float_spec_witness :
    parse_thousands_to_rp (.float qFrac) = Option.some 23699000 := by
  have h := (parse_thousands_float_spec qFrac).1 (by decide)
    ((frac_gt_eps_iff qFrac (pyRound qFrac)).mp (by decide))
  rw [h, pyRound_mul_thousand]
  decide

end PriceShopee
